import Mathlib

/-!
Verification development for `plot/scripts/plotter.py`: a shallow embedding of
the JSON sanitization pipeline (layout range repair, trace field filtering,
empty-substructure stripping, and per-type fixups) together with proofs of the
specified properties.

Python dictionaries are modelled as association lists with unique keys in
insertion order; JSON values are modelled by the inductive `JVal`.  Operations
that can raise in Python (`KeyError`, unknown trace-type lookup, attribute or
subscript misuse) return `Except PErr`.
-/

/-- A JSON value as produced by `json.load`: null, number, string, array, or
object (a Python dict, kept as an insertion-ordered association list). -/
inductive JVal where
  | null : JVal
  | num (n : Int) : JVal
  | str (s : String) : JVal
  | arr (xs : List JVal) : JVal
  | obj (fs : List (String × JVal)) : JVal

/-- A Python run-time error that aborts the run: `KeyError` from a dict access
(`keyError` carries the missing key), the `KeyError` raised by the
`type_map[trace_type]` lookup in `map_trace_type_to_plotly_object`
(`mapLookupError` carries the unrecognized tag), a `TypeError` from using a
non-dict/non-sized value where one is required, or the `ValueError` NumPy
raises when `np.array` is applied to a ragged nested sequence. -/
inductive PErr where
  | keyError (k : String)
  | mapLookupError (t : String)
  | typeError
  | valueError

/-- `d[k]` as a query: the value stored at key `k`, if present. -/
def dictGet : List (String × JVal) → String → Option JVal
  | [], _ => none
  | (k', v) :: rest, k => if k' = k then some v else dictGet rest k

/-- `k in d` for a Python dict. -/
def hasKey : List (String × JVal) → String → Bool
  | [], _ => false
  | (k', _) :: rest, k => if k' = k then true else hasKey rest k

/-- Remove key `k` from the dict (no-op when absent); the tail of `d.pop(k)`. -/
def dictRemove : List (String × JVal) → String → List (String × JVal)
  | [], _ => []
  | (k', v) :: rest, k =>
      if k' = k then dictRemove rest k else (k', v) :: dictRemove rest k

/-- `d.pop(k)`: the removed value together with the remaining dict, or `none`
(a `KeyError` at the call site) when the key is absent. -/
def dictPop (fs : List (String × JVal)) (k : String) :
    Option (JVal × List (String × JVal)) :=
  match dictGet fs k with
  | some v => some (v, dictRemove fs k)
  | none => none

/-- `d[k] = v`: overwrite in place when the key exists (keeping its position),
otherwise append the new entry at the end, as Python dict assignment does. -/
def dictSet (fs : List (String × JVal)) (k : String) (v : JVal) :
    List (String × JVal) :=
  if hasKey fs k then fs.map (fun p => if p.1 = k then (k, v) else p)
  else fs ++ [(k, v)]

/-- `len(v)` for a JSON value: defined for strings, arrays and objects;
`none` (a Python `TypeError`) otherwise. -/
def jLen : JVal → Option Nat
  | .str s => some s.length
  | .arr xs => some xs.length
  | .obj fs => some fs.length
  | _ => none

/-- Substring containment, for Python's `sub in s` on strings. -/
def strContainsSub (s sub : String) : Bool :=
  (s.splitOn sub).length != 1

/-- Python's `k in v` for a JSON value `v`: key membership on dicts, element
membership on arrays, substring containment on strings; `none` (a `TypeError`)
on null and numbers. -/
def pyContains (v : JVal) (k : String) : Option Bool :=
  match v with
  | .obj fs => some (hasKey fs k)
  | .arr xs => some (xs.any (fun x => match x with | .str s => s == k | _ => false))
  | .str s => some (strContainsSub s k)
  | _ => none

/-- `remove_empty_keys`: recursively clean the entries of a dict.  A dict-valued
entry is cleaned recursively and dropped if the cleaned dict is empty; a
list-valued entry is dropped if the list is empty; every other entry is kept
unchanged.  (Lists are not recursed into, exactly as in the source.) -/
def remove_empty_keys : List (String × JVal) → List (String × JVal)
  | [] => []
  | (k, JVal.obj fs) :: rest =>
      if (remove_empty_keys fs).length = 0 then remove_empty_keys rest
      else (k, JVal.obj (remove_empty_keys fs)) :: remove_empty_keys rest
  | (k, JVal.arr xs) :: rest =>
      if xs.length = 0 then remove_empty_keys rest
      else (k, JVal.arr xs) :: remove_empty_keys rest
  | (k, JVal.null) :: rest => (k, JVal.null) :: remove_empty_keys rest
  | (k, JVal.num n) :: rest => (k, JVal.num n) :: remove_empty_keys rest
  | (k, JVal.str s) :: rest => (k, JVal.str s) :: remove_empty_keys rest
termination_by l => sizeOf l

/-- The element order of `np.array(z).flatten()` on a value `np.array`
accepts: the depth-first sequence of the non-array leaves.  A scalar input
becomes the one-element sequence holding it.  Only applied after the shape
check `npShape` succeeds, mirroring that `np.array` builds an n-dimensional
array (and so flattens) only for rectangular nesting. -/
def flattenZ : JVal → List JVal
  | .arr [] => []
  | .arr (x :: rest) => flattenZ x ++ flattenZ (.arr rest)
  | .null => [.null]
  | .num n => [.num n]
  | .str s => [.str s]
  | .obj fs => [.obj fs]
termination_by v => sizeOf v

/-- The shape `np.array` infers for a nested value: non-array values are
0-dimensional scalars, and an array contributes a dimension only if all of
its elements share the same shape.  `none` models the `ValueError` NumPy
raises on ragged nesting (`np.array([[1, 2], [3]])`). -/
def npShape : JVal → Option (List Nat)
  | .arr [] => some [0]
  | .arr [x] =>
      match npShape x with
      | some sh => some (1 :: sh)
      | none => none
  | .arr (x :: y :: rest) =>
      match npShape x, npShape (.arr (y :: rest)) with
      | some sh, some (n :: sh2) => if sh2 = sh then some ((n + 1) :: sh) else none
      | _, _ => none
  | .null => some []
  | .num n => some []
  | .str s => some []
  | .obj fs => some []
termination_by v => sizeOf v

/-- The seven keys of `type_map` in `map_trace_type_to_plotly_object`. -/
def knownTraceTypes : List String :=
  ["scatter", "pie", "heatmap", "surface", "scatter3d", "bar", "histogram"]

/-- `custom_keys` from `process_trace`. -/
def custom_keys : List String := ["x_str"]

/-- `dir(map_trace_type_to_plotly_object(trace_type)) + custom_keys`: the
accepted-field set for a trace type.  `dirAttrs` abstracts the external
`dir()` introspection of the Plotly chart-object class for each tag. -/
def acceptedKeys (dirAttrs : String → List String) (trace_type : String) :
    List String :=
  dirAttrs trace_type ++ custom_keys

/-- The filtering loop of `process_trace`: drop every entry whose key is not in
the accepted list, preserving the order of the kept entries. -/
def filterTrace (accepted : List String) (fs : List (String × JVal)) :
    List (String × JVal) :=
  fs.filter (fun p => decide (p.1 ∈ accepted))

/-- The pie fixup of `process_trace`: when the type is `pie` and a `marker`
entry is present, pop `opacity` and `colorscale` from it (a `KeyError` when
either is absent, a `TypeError` when `marker` is not a dict). -/
def pieFixup (trace_type : String) (fs : List (String × JVal)) :
    Except PErr (List (String × JVal)) :=
  if trace_type = "pie" then
    match dictGet fs "marker" with
    | some (.obj mfs) =>
      match dictPop mfs "opacity" with
      | some (_, mfs1) =>
        match dictPop mfs1 "colorscale" with
        | some (_, mfs2) => .ok (dictSet fs "marker" (.obj mfs2))
        | none => .error (.keyError "colorscale")
      | none => .error (.keyError "opacity")
    | some _ => .error .typeError
    | none => .ok fs
  else .ok fs

/-- The `x_str` fixup of `process_trace`: when `x_str` is present, copy its
value into `x` for `bar` traces, then remove `x_str` for every type. -/
def xStrFixup (trace_type : String) (fs : List (String × JVal)) :
    List (String × JVal) :=
  match dictGet fs "x_str" with
  | some xv =>
      let fs1 := if trace_type = "bar" then dictSet fs "x" xv else fs
      dictRemove fs1 "x_str"
  | none => fs

/-- The 3D-scatter fixup of `process_trace`: for `scatter3d` traces replace
`z` with `np.array(z).flatten()` — a `KeyError` when `z` is absent, a
`ValueError` when the nesting is ragged and `np.array` rejects it, and the
depth-first flattening when the shape is rectangular. -/
def scatter3dFixup (trace_type : String) (fs : List (String × JVal)) :
    Except PErr (List (String × JVal)) :=
  if trace_type = "scatter3d" then
    match dictGet fs "z" with
    | some zv =>
        match npShape zv with
        | some _ => .ok (dictSet fs "z" (.arr (flattenZ zv)))
        | none => .error .valueError
    | none => .error (.keyError "z")
  else .ok fs

/-- Steps 2-5 of `process_trace` after the trace type has been popped and
recognized: filter to the accepted keys, strip empty substructures, then apply
the pie, `x_str` and `scatter3d` fixups in order. -/
def sanitizeFields (dirAttrs : String → List String) (trace_type : String)
    (fs : List (String × JVal)) : Except PErr (List (String × JVal)) :=
  let filtered := filterTrace (acceptedKeys dirAttrs trace_type) fs
  let cleaned := remove_empty_keys filtered
  match pieFixup trace_type cleaned with
  | .error e => .error e
  | .ok t4 =>
      match scatter3dFixup trace_type (xStrFixup trace_type t4) with
      | .error e => .error e
      | .ok t6 => .ok t6

/-- The chart object returned by `process_trace`: the constructor tag together
with the sanitized field dict it is initialized from. -/
structure PlotlyObj where
  ty : String
  fields : List (String × JVal)

/-- `process_trace`: pop `trace_type` (a `KeyError` when absent), look its
value up in the type map (a `KeyError` on an unrecognized tag, modelled as
`mapLookupError`; a non-string value cannot index the map), sanitize the
remaining fields and build the chart object. -/
def process_trace (dirAttrs : String → List String)
    (trace : List (String × JVal)) : Except PErr PlotlyObj :=
  match dictPop trace "trace_type" with
  | none => .error (.keyError "trace_type")
  | some (.str trace_type, rest) =>
      if knownTraceTypes.contains trace_type then
        match sanitizeFields dirAttrs trace_type rest with
        | .ok fs => .ok ⟨trace_type, fs⟩
        | .error e => .error e
      else .error (.mapLookupError trace_type)
  | some (_, _) => .error .typeError

/-- `process_layout_range`: when `layout` has an `{axis}axis` entry containing
a `range` whose length is not 2, replace that `range` with `None`; otherwise
leave the layout unchanged.  Python's `in` and `len` failures on ill-typed
values surface as errors. -/
def process_layout_range (layout : List (String × JVal)) (axis : String) :
    Except PErr (List (String × JVal)) :=
  let akey := axis ++ "axis"
  match dictGet layout akey with
  | none => .ok layout
  | some av =>
    match pyContains av "range" with
    | none => .error .typeError
    | some false => .ok layout
    | some true =>
      match av with
      | .obj afs =>
          match dictGet afs "range" with
          | some rv =>
              match jLen rv with
              | none => .error .typeError
              | some n =>
                  if n ≠ 2 then
                    .ok (dictSet layout akey (.obj (dictSet afs "range" .null)))
                  else .ok layout
          | none => .ok layout
      | _ => .error .typeError

/-! ### Association-list lemmas -/

theorem dictGet_cons (a : String) (b : JVal) (l : List (String × JVal))
    (k : String) :
    dictGet ((a, b) :: l) k = if a = k then some b else dictGet l k := rfl

theorem hasKey_cons (a : String) (b : JVal) (l : List (String × JVal))
    (k : String) :
    hasKey ((a, b) :: l) k = if a = k then true else hasKey l k := rfl

theorem dictRemove_cons (a : String) (b : JVal) (l : List (String × JVal))
    (k : String) :
    dictRemove ((a, b) :: l) k =
      if a = k then dictRemove l k else (a, b) :: dictRemove l k := rfl

theorem hasKey_of_dictGet {fs : List (String × JVal)} {k : String} {v : JVal}
    (h : dictGet fs k = some v) : hasKey fs k = true := by
  induction fs with
  | nil => simp [dictGet] at h
  | cons p rest ih =>
      obtain ⟨k', v'⟩ := p
      by_cases hk : k' = k
      · simp [hasKey, hk]
      · simp [dictGet, hk] at h
        simp [hasKey, hk, ih h]

theorem dictGet_none_of_not_hasKey {fs : List (String × JVal)} {k : String}
    (h : hasKey fs k = false) : dictGet fs k = none := by
  induction fs with
  | nil => rfl
  | cons p rest ih =>
      obtain ⟨k', v'⟩ := p
      by_cases hk : k' = k
      · simp [hasKey, hk] at h
      · simp [hasKey, hk] at h
        simp [dictGet, hk, ih h]

theorem dictGet_some_of_hasKey {fs : List (String × JVal)} {k : String}
    (h : hasKey fs k = true) : ∃ v, dictGet fs k = some v := by
  induction fs with
  | nil => simp [hasKey] at h
  | cons p rest ih =>
      obtain ⟨k', v'⟩ := p
      by_cases hk : k' = k
      · exact ⟨v', by simp [dictGet, hk]⟩
      · simp [hasKey, hk] at h
        obtain ⟨v, hv⟩ := ih h
        exact ⟨v, by simp [dictGet, hk, hv]⟩

theorem hasKey_dictRemove_self (fs : List (String × JVal)) (k : String) :
    hasKey (dictRemove fs k) k = false := by
  induction fs with
  | nil => rfl
  | cons p rest ih =>
      obtain ⟨k', v'⟩ := p
      by_cases hk : k' = k
      · simp [dictRemove, hk, ih]
      · simp [dictRemove, hasKey, hk, ih]

theorem hasKey_dictRemove_ne {k' k : String} (h : k' ≠ k)
    (fs : List (String × JVal)) : hasKey (dictRemove fs k) k' = hasKey fs k' := by
  induction fs with
  | nil => rfl
  | cons p rest ih =>
      obtain ⟨k1, v1⟩ := p
      by_cases hk : k1 = k
      · simp [dictRemove, hasKey, hk, Ne.symm h, ih]
      · simp [dictRemove, hasKey, hk, ih]

theorem dictGet_dictRemove_ne {k' k : String} (h : k' ≠ k)
    (fs : List (String × JVal)) : dictGet (dictRemove fs k) k' = dictGet fs k' := by
  induction fs with
  | nil => rfl
  | cons p rest ih =>
      obtain ⟨k1, v1⟩ := p
      by_cases hk : k1 = k
      · simp [dictRemove, dictGet, hk, Ne.symm h, ih]
      · simp [dictRemove, dictGet, hk, ih]

theorem dictGet_append_single_self {fs : List (String × JVal)} {k : String}
    (h : hasKey fs k = false) (v : JVal) :
    dictGet (fs ++ [(k, v)]) k = some v := by
  induction fs with
  | nil => simp [dictGet]
  | cons p rest ih =>
      obtain ⟨k1, v1⟩ := p
      by_cases hk : k1 = k
      · simp [hasKey, hk] at h
      · simp [hasKey, hk] at h
        simp [dictGet, hk, ih h]

theorem dictGet_map_overwrite_self {fs : List (String × JVal)} {k : String}
    (h : hasKey fs k = true) (v : JVal) :
    dictGet (fs.map (fun p => if p.1 = k then (k, v) else p)) k = some v := by
  induction fs with
  | nil => simp [hasKey] at h
  | cons p rest ih =>
      obtain ⟨k1, v1⟩ := p
      rw [List.map_cons]
      by_cases hk : k1 = k
      · have hf : (if (k1, v1).1 = k then (k, v) else (k1, v1)) = (k, v) := by
          simp [hk]
        rw [hf, dictGet_cons, if_pos rfl]
      · have hf : (if (k1, v1).1 = k then (k, v) else (k1, v1)) = (k1, v1) := by
          simp [hk]
        rw [hasKey_cons, if_neg hk] at h
        rw [hf, dictGet_cons, if_neg hk, ih h]

theorem dictGet_dictSet_self (fs : List (String × JVal)) (k : String) (v : JVal) :
    dictGet (dictSet fs k v) k = some v := by
  unfold dictSet
  cases h : hasKey fs k with
  | true => simp [dictGet_map_overwrite_self h]
  | false => simp [dictGet_append_single_self h]

theorem dictGet_map_overwrite_ne {k' k : String} (h : k' ≠ k) (v : JVal)
    (fs : List (String × JVal)) :
    dictGet (fs.map (fun p => if p.1 = k then (k, v) else p)) k' = dictGet fs k' := by
  induction fs with
  | nil => rfl
  | cons p rest ih =>
      obtain ⟨k1, v1⟩ := p
      rw [List.map_cons]
      by_cases hk : k1 = k
      · have hf : (if (k1, v1).1 = k then (k, v) else (k1, v1)) = (k, v) := by
          simp [hk]
        have h1 : k1 ≠ k' := by rw [hk]; exact Ne.symm h
        rw [hf, dictGet_cons, if_neg (Ne.symm h), ih, dictGet_cons, if_neg h1]
      · have hf : (if (k1, v1).1 = k then (k, v) else (k1, v1)) = (k1, v1) := by
          simp [hk]
        rw [hf, dictGet_cons, ih, dictGet_cons]

theorem dictGet_append_single_ne {k' k : String} (h : k' ≠ k) (v : JVal)
    (fs : List (String × JVal)) :
    dictGet (fs ++ [(k, v)]) k' = dictGet fs k' := by
  induction fs with
  | nil => simp [dictGet, Ne.symm h]
  | cons p rest ih =>
      obtain ⟨k1, v1⟩ := p
      rw [List.cons_append, dictGet_cons, dictGet_cons, ih]

theorem dictGet_dictSet_ne {k' k : String} (h : k' ≠ k)
    (fs : List (String × JVal)) (v : JVal) :
    dictGet (dictSet fs k v) k' = dictGet fs k' := by
  unfold dictSet
  cases hh : hasKey fs k with
  | true => simp [dictGet_map_overwrite_ne h]
  | false => simp [dictGet_append_single_ne h]

theorem hasKey_dictSet_self (fs : List (String × JVal)) (k : String) (v : JVal) :
    hasKey (dictSet fs k v) k = true := by
  have := dictGet_dictSet_self fs k v
  exact hasKey_of_dictGet this

theorem hasKey_dictSet_ne {k' k : String} (h : k' ≠ k)
    (fs : List (String × JVal)) (v : JVal) :
    hasKey (dictSet fs k v) k' = hasKey fs k' := by
  cases hh : hasKey fs k' with
  | true =>
      obtain ⟨w, hw⟩ := dictGet_some_of_hasKey hh
      have : dictGet (dictSet fs k v) k' = some w := by
        rw [dictGet_dictSet_ne h fs v]; exact hw
      exact hasKey_of_dictGet this
  | false =>
      have : dictGet (dictSet fs k v) k' = none := by
        rw [dictGet_dictSet_ne h fs v]
        exact dictGet_none_of_not_hasKey hh
      cases hres : hasKey (dictSet fs k v) k' with
      | false => rfl
      | true =>
          obtain ⟨w, hw⟩ := dictGet_some_of_hasKey hres
          rw [this] at hw
          cases hw

theorem dictPop_eq_some {fs : List (String × JVal)} {k : String} {v : JVal}
    (h : dictGet fs k = some v) :
    dictPop fs k = some (v, dictRemove fs k) := by
  unfold dictPop
  rw [h]

theorem dictPop_eq_none {fs : List (String × JVal)} {k : String}
    (h : hasKey fs k = false) : dictPop fs k = none := by
  unfold dictPop
  rw [dictGet_none_of_not_hasKey h]

theorem not_hasKey_of_dictGet_none {fs : List (String × JVal)} {k : String}
    (h : dictGet fs k = none) : hasKey fs k = false := by
  cases hh : hasKey fs k with
  | false => rfl
  | true =>
      obtain ⟨v, hv⟩ := dictGet_some_of_hasKey hh
      rw [h] at hv
      cases hv

/-! ### Filtering and empty-key stripping -/

theorem hasKey_filterTrace (accepted : List String) (fs : List (String × JVal))
    (k : String) :
    hasKey (filterTrace accepted fs) k = (hasKey fs k && decide (k ∈ accepted)) := by
  induction fs with
  | nil => simp [filterTrace, hasKey]
  | cons p rest ih =>
      obtain ⟨k1, v1⟩ := p
      simp only [filterTrace, List.filter_cons] at ih ⊢
      by_cases hk : k1 = k
      · subst hk
        by_cases hc : k1 ∈ accepted
        · simp [hc, hasKey_cons]
        · simp [hc, hasKey_cons, ih]
      · by_cases hc : k1 ∈ accepted
        · simp [hc, hk, hasKey_cons, ih]
        · simp [hc, hk, hasKey_cons, ih]

theorem dictGet_filterTrace_mem {accepted : List String} {k : String}
    (h : k ∈ accepted) (fs : List (String × JVal)) :
    dictGet (filterTrace accepted fs) k = dictGet fs k := by
  induction fs with
  | nil => rfl
  | cons p rest ih =>
      obtain ⟨k1, v1⟩ := p
      simp only [filterTrace, List.filter_cons] at ih ⊢
      by_cases hc : k1 ∈ accepted
      · simp [hc, dictGet_cons, ih]
      · have hk : k1 ≠ k := fun e => hc (e ▸ h)
        simp [hc, hk, dictGet_cons, ih]

theorem dictGet_filterTrace_not_mem {accepted : List String} {k : String}
    (h : k ∉ accepted) (fs : List (String × JVal)) :
    dictGet (filterTrace accepted fs) k = none := by
  apply dictGet_none_of_not_hasKey
  rw [hasKey_filterTrace]
  simp [h]

theorem hasKey_remove_empty_keys {l : List (String × JVal)} {k : String}
    (h : hasKey (remove_empty_keys l) k = true) : hasKey l k = true := by
  induction l using remove_empty_keys.induct with
  | case1 => simp [remove_empty_keys, hasKey] at h
  | case2 k0 fs rest hlen ih2 ih1 =>
      simp only [remove_empty_keys, hlen, if_true] at h
      rw [hasKey_cons]
      by_cases hk : k0 = k
      · simp [hk]
      · simp [hk, ih1 h]
  | case3 k0 fs rest hlen ih2 ih1 =>
      simp only [remove_empty_keys, hlen, if_false] at h
      rw [hasKey_cons] at h ⊢
      by_cases hk : k0 = k
      · simp [hk]
      · simp only [hk, if_false] at h ⊢
        exact ih1 h
  | case4 k0 xs rest hlen ih1 =>
      simp only [remove_empty_keys, hlen, if_true] at h
      rw [hasKey_cons]
      by_cases hk : k0 = k
      · simp [hk]
      · simp [hk, ih1 h]
  | case5 k0 xs rest hlen ih1 =>
      simp only [remove_empty_keys, hlen, if_false] at h
      rw [hasKey_cons] at h ⊢
      by_cases hk : k0 = k
      · simp [hk]
      · simp only [hk, if_false] at h ⊢
        exact ih1 h
  | case6 k0 rest ih1 =>
      simp only [remove_empty_keys] at h
      rw [hasKey_cons] at h ⊢
      by_cases hk : k0 = k
      · simp [hk]
      · simp only [hk, if_false] at h ⊢
        exact ih1 h
  | case7 k0 n rest ih1 =>
      simp only [remove_empty_keys] at h
      rw [hasKey_cons] at h ⊢
      by_cases hk : k0 = k
      · simp [hk]
      · simp only [hk, if_false] at h ⊢
        exact ih1 h
  | case8 k0 s rest ih1 =>
      simp only [remove_empty_keys] at h
      rw [hasKey_cons] at h ⊢
      by_cases hk : k0 = k
      · simp [hk]
      · simp only [hk, if_false] at h ⊢
        exact ih1 h

/-- C7: `remove_empty_keys` is idempotent: for every dictionary, applying it
twice yields the same result as applying it once. -/
theorem remove_empty_keys_idem (l : List (String × JVal)) :
    remove_empty_keys (remove_empty_keys l) = remove_empty_keys l := by
  induction l using remove_empty_keys.induct with
  | case1 => simp [remove_empty_keys]
  | case2 k0 fs rest hlen ih2 ih1 => simp [remove_empty_keys, hlen, ih1]
  | case3 k0 fs rest hlen ih2 ih1 => simp [remove_empty_keys, hlen, ih1, ih2]
  | case4 k0 xs rest hlen ih1 => simp [remove_empty_keys, hlen, ih1]
  | case5 k0 xs rest hlen ih1 => simp [remove_empty_keys, hlen, ih1]
  | case6 k0 rest ih1 => simp [remove_empty_keys, ih1]
  | case7 k0 n rest ih1 => simp [remove_empty_keys, ih1]
  | case8 k0 s rest ih1 => simp [remove_empty_keys, ih1]

/-! ### Fixup-step lemmas -/

theorem pieFixup_not_pie {t : String} (h : t ≠ "pie") (fs : List (String × JVal)) :
    pieFixup t fs = .ok fs := by
  simp [pieFixup, h]

theorem pieFixup_no_marker {t : String} {fs : List (String × JVal)}
    (h : dictGet fs "marker" = none) : pieFixup t fs = .ok fs := by
  by_cases ht : t = "pie"
  · simp [pieFixup, ht, h]
  · simp [pieFixup, ht]

theorem pieFixup_ok_shape {t : String} {fs gs : List (String × JVal)}
    (h : pieFixup t fs = .ok gs) :
    gs = fs ∨ ∃ m, gs = dictSet fs "marker" m := by
  by_cases ht : t = "pie"
  · subst ht
    cases hm : dictGet fs "marker" with
    | none =>
        rw [pieFixup_no_marker hm] at h
        left
        exact (Except.ok.inj h).symm
    | some mv =>
        cases mv with
        | obj mfs =>
            cases hp : dictPop mfs "opacity" with
            | none => simp [pieFixup, hm, hp] at h
            | some pr =>
                obtain ⟨ov, mfs1⟩ := pr
                cases hc : dictPop mfs1 "colorscale" with
                | none => simp [pieFixup, hm, hp, hc] at h
                | some pr2 =>
                    obtain ⟨cv, mfs2⟩ := pr2
                    simp only [pieFixup, hm, hp, hc] at h
                    right
                    refine ⟨.obj mfs2, ?_⟩
                    simp at h
                    exact h.symm
        | null => simp [pieFixup, hm] at h
        | num n => simp [pieFixup, hm] at h
        | str s => simp [pieFixup, hm] at h
        | arr xs => simp [pieFixup, hm] at h
  · rw [pieFixup_not_pie ht] at h
    left
    exact (Except.ok.inj h).symm

theorem pieFixup_ok_dictGet {t : String} {fs gs : List (String × JVal)}
    (h : pieFixup t fs = .ok gs) {k : String} (hk : k ≠ "marker") :
    dictGet gs k = dictGet fs k := by
  rcases pieFixup_ok_shape h with rfl | ⟨m, rfl⟩
  · rfl
  · exact dictGet_dictSet_ne hk fs m

theorem pieFixup_ok_hasKey {t : String} {fs gs : List (String × JVal)}
    (h : pieFixup t fs = .ok gs) {k : String} (hk : k ≠ "marker") :
    hasKey gs k = hasKey fs k := by
  rcases pieFixup_ok_shape h with rfl | ⟨m, rfl⟩
  · rfl
  · exact hasKey_dictSet_ne hk fs m

theorem xStrFixup_no {t : String} {fs : List (String × JVal)}
    (h : dictGet fs "x_str" = none) : xStrFixup t fs = fs := by
  simp [xStrFixup, h]

theorem xStrFixup_bar {fs : List (String × JVal)} {xv : JVal}
    (h : dictGet fs "x_str" = some xv) :
    xStrFixup "bar" fs = dictRemove (dictSet fs "x" xv) "x_str" := by
  simp [xStrFixup, h]

theorem xStrFixup_not_bar {t : String} (ht : t ≠ "bar")
    {fs : List (String × JVal)} {xv : JVal} (h : dictGet fs "x_str" = some xv) :
    xStrFixup t fs = dictRemove fs "x_str" := by
  simp [xStrFixup, h, ht]

theorem hasKey_xStrFixup_x_str (t : String) (fs : List (String × JVal)) :
    hasKey (xStrFixup t fs) "x_str" = false := by
  cases h : dictGet fs "x_str" with
  | none =>
      rw [xStrFixup_no h]
      exact not_hasKey_of_dictGet_none h
  | some xv =>
      simp only [xStrFixup, h]
      exact hasKey_dictRemove_self _ _

theorem dictGet_xStrFixup_ne {k : String} (h1 : k ≠ "x") (h2 : k ≠ "x_str")
    (t : String) (fs : List (String × JVal)) :
    dictGet (xStrFixup t fs) k = dictGet fs k := by
  cases h : dictGet fs "x_str" with
  | none => rw [xStrFixup_no h]
  | some xv =>
      simp only [xStrFixup, h]
      rw [dictGet_dictRemove_ne h2]
      by_cases ht : t = "bar"
      · simp [ht, dictGet_dictSet_ne h1]
      · simp [ht]

theorem hasKey_xStrFixup_ne {k : String} (h1 : k ≠ "x") (h2 : k ≠ "x_str")
    (t : String) (fs : List (String × JVal)) :
    hasKey (xStrFixup t fs) k = hasKey fs k := by
  cases h : dictGet fs "x_str" with
  | none => rw [xStrFixup_no h]
  | some xv =>
      simp only [xStrFixup, h]
      rw [hasKey_dictRemove_ne h2]
      by_cases ht : t = "bar"
      · simp [ht, hasKey_dictSet_ne h1]
      · simp [ht]

theorem scatter3dFixup_not {t : String} (h : t ≠ "scatter3d")
    (fs : List (String × JVal)) : scatter3dFixup t fs = .ok fs := by
  simp [scatter3dFixup, h]

theorem scatter3dFixup_z {fs : List (String × JVal)} {zv : JVal}
    (hz : dictGet fs "z" = some zv) {sh : List Nat} (hsh : npShape zv = some sh) :
    scatter3dFixup "scatter3d" fs = .ok (dictSet fs "z" (.arr (flattenZ zv))) := by
  simp [scatter3dFixup, hz, hsh]

theorem scatter3dFixup_ragged {fs : List (String × JVal)} {zv : JVal}
    (hz : dictGet fs "z" = some zv) (hsh : npShape zv = none) :
    scatter3dFixup "scatter3d" fs = .error .valueError := by
  simp [scatter3dFixup, hz, hsh]

theorem scatter3dFixup_no_z {fs : List (String × JVal)}
    (hz : dictGet fs "z" = none) :
    scatter3dFixup "scatter3d" fs = .error (.keyError "z") := by
  simp [scatter3dFixup, hz]

theorem scatter3dFixup_ok_shape {t : String} {fs gs : List (String × JVal)}
    (h : scatter3dFixup t fs = .ok gs) :
    gs = fs ∨ ∃ w, gs = dictSet fs "z" w := by
  by_cases ht : t = "scatter3d"
  · subst ht
    cases hz : dictGet fs "z" with
    | none =>
        rw [scatter3dFixup_no_z hz] at h
        exact Except.noConfusion h
    | some zv =>
        cases hsh : npShape zv with
        | none =>
            rw [scatter3dFixup_ragged hz hsh] at h
            exact Except.noConfusion h
        | some sh =>
            rw [scatter3dFixup_z hz hsh] at h
            right
            exact ⟨.arr (flattenZ zv), (Except.ok.inj h).symm⟩
  · rw [scatter3dFixup_not ht] at h
    left
    exact (Except.ok.inj h).symm

theorem scatter3dFixup_ok_dictGet {t : String} {fs gs : List (String × JVal)}
    (h : scatter3dFixup t fs = .ok gs) {k : String} (hk : k ≠ "z") :
    dictGet gs k = dictGet fs k := by
  rcases scatter3dFixup_ok_shape h with rfl | ⟨w, rfl⟩
  · rfl
  · exact dictGet_dictSet_ne hk fs w

theorem scatter3dFixup_ok_hasKey {t : String} {fs gs : List (String × JVal)}
    (h : scatter3dFixup t fs = .ok gs) {k : String} (hk : k ≠ "z") :
    hasKey gs k = hasKey fs k := by
  rcases scatter3dFixup_ok_shape h with rfl | ⟨w, rfl⟩
  · rfl
  · exact hasKey_dictSet_ne hk fs w

/-! ### Pipeline lemmas -/

theorem sanitizeFields_eq (dirAttrs : String → List String) (t : String)
    (fs : List (String × JVal)) :
    sanitizeFields dirAttrs t fs =
      match pieFixup t (remove_empty_keys (filterTrace (acceptedKeys dirAttrs t) fs)) with
      | .error e => .error e
      | .ok t4 =>
          match scatter3dFixup t (xStrFixup t t4) with
          | .error e => .error e
          | .ok t6 => .ok t6 := rfl

theorem sanitizeFields_ok_elim {dirAttrs : String → List String} {t : String}
    {rest fs : List (String × JVal)}
    (h : sanitizeFields dirAttrs t rest = .ok fs) :
    ∃ t4, pieFixup t (remove_empty_keys (filterTrace (acceptedKeys dirAttrs t) rest)) = .ok t4 ∧
      scatter3dFixup t (xStrFixup t t4) = .ok fs := by
  rw [sanitizeFields_eq] at h
  cases hp : pieFixup t (remove_empty_keys (filterTrace (acceptedKeys dirAttrs t) rest)) with
  | error e =>
      simp only [hp] at h
      exact Except.noConfusion h
  | ok t4 =>
      simp only [hp] at h
      cases hs : scatter3dFixup t (xStrFixup t t4) with
      | error e =>
          simp only [hs] at h
          exact Except.noConfusion h
      | ok t6 =>
          simp only [hs] at h
          obtain rfl : t6 = fs := Except.ok.inj h
          exact ⟨t4, rfl, hs⟩

theorem sanitizeFields_ok_intro {dirAttrs : String → List String} {t : String}
    {rest t4 t6 : List (String × JVal)}
    (hp : pieFixup t (remove_empty_keys (filterTrace (acceptedKeys dirAttrs t) rest)) = .ok t4)
    (hs : scatter3dFixup t (xStrFixup t t4) = .ok t6) :
    sanitizeFields dirAttrs t rest = .ok t6 := by
  rw [sanitizeFields_eq]
  simp only [hp, hs]

theorem sanitizeFields_err_pie {dirAttrs : String → List String} {t : String}
    {rest : List (String × JVal)} {e : PErr}
    (hp : pieFixup t (remove_empty_keys (filterTrace (acceptedKeys dirAttrs t) rest)) = .error e) :
    sanitizeFields dirAttrs t rest = .error e := by
  rw [sanitizeFields_eq]
  simp only [hp]

theorem dictPop_some_elim {fs rest : List (String × JVal)} {k : String} {v : JVal}
    (h : dictPop fs k = some (v, rest)) :
    dictGet fs k = some v ∧ rest = dictRemove fs k := by
  unfold dictPop at h
  cases hg : dictGet fs k with
  | none => rw [hg] at h; exact Option.noConfusion h
  | some w =>
      simp only [hg, Option.some.injEq, Prod.mk.injEq] at h
      obtain ⟨h1, h2⟩ := h
      exact ⟨by rw [h1], h2.symm⟩

theorem process_trace_no_type (dirAttrs : String → List String)
    {trace : List (String × JVal)} (h : hasKey trace "trace_type" = false) :
    process_trace dirAttrs trace = .error (.keyError "trace_type") := by
  unfold process_trace
  rw [dictPop_eq_none h]

theorem process_trace_known (dirAttrs : String → List String)
    {trace rest : List (String × JVal)} {t : String}
    (hpop : dictPop trace "trace_type" = some (.str t, rest))
    (hknown : t ∈ knownTraceTypes) :
    process_trace dirAttrs trace =
      match sanitizeFields dirAttrs t rest with
      | .ok fs => .ok ⟨t, fs⟩
      | .error e => .error e := by
  unfold process_trace
  rw [hpop]
  simp [hknown]

theorem process_trace_unknown (dirAttrs : String → List String)
    {trace rest : List (String × JVal)} {t : String}
    (hpop : dictPop trace "trace_type" = some (.str t, rest))
    (hunknown : t ∉ knownTraceTypes) :
    process_trace dirAttrs trace = .error (.mapLookupError t) := by
  unfold process_trace
  rw [hpop]
  simp [hunknown]

theorem process_trace_ok_elim {dirAttrs : String → List String}
    {trace : List (String × JVal)} {r : PlotlyObj}
    (h : process_trace dirAttrs trace = .ok r) :
    ∃ t rest, dictPop trace "trace_type" = some (.str t, rest) ∧
      t ∈ knownTraceTypes ∧ sanitizeFields dirAttrs t rest = .ok r.fields ∧
      r.ty = t := by
  unfold process_trace at h
  cases hpop : dictPop trace "trace_type" with
  | none =>
      simp only [hpop] at h
      exact Except.noConfusion h
  | some pr =>
      obtain ⟨tv, rest⟩ := pr
      simp only [hpop] at h
      cases tv with
      | str t =>
          by_cases hk : t ∈ knownTraceTypes
          · simp only [List.elem_eq_true_of_mem hk, if_true] at h
            cases hs : sanitizeFields dirAttrs t rest with
            | error e =>
                simp only [hs] at h
                exact Except.noConfusion h
            | ok fs =>
                simp only [hs] at h
                have hr : PlotlyObj.mk t fs = r := Except.ok.inj h
                subst hr
                exact ⟨t, rest, rfl, hk, hs, rfl⟩
          · simp [hk] at h
      | null => exact Except.noConfusion h
      | num n => exact Except.noConfusion h
      | arr xs => exact Except.noConfusion h
      | obj fs => exact Except.noConfusion h

/-! ### Claim theorems -/

/-- C1: the filtering step of `process_trace` keeps exactly the fields whose
names lie in the accepted set for the trace type — the introspected attribute
list of the chart-object class plus the custom field `x_str`.  Every other
field is removed, and every accepted field survives the filtering step with
its value. -/
theorem filterTrace_accepted_spec (dirAttrs : String → List String)
    (t : String) (fs : List (String × JVal)) (k : String) :
    (hasKey (filterTrace (acceptedKeys dirAttrs t) fs) k = true ↔
       hasKey fs k = true ∧ (k ∈ dirAttrs t ∨ k = "x_str")) ∧
    ((k ∈ dirAttrs t ∨ k = "x_str") →
       dictGet (filterTrace (acceptedKeys dirAttrs t) fs) k = dictGet fs k) ∧
    (¬(k ∈ dirAttrs t ∨ k = "x_str") →
       dictGet (filterTrace (acceptedKeys dirAttrs t) fs) k = none) := by
  have hmem : (k ∈ acceptedKeys dirAttrs t) ↔ (k ∈ dirAttrs t ∨ k = "x_str") := by
    simp [acceptedKeys, custom_keys]
  refine ⟨?_, ?_, ?_⟩
  · rw [hasKey_filterTrace]
    simp [hmem]
  · intro hk
    exact dictGet_filterTrace_mem (hmem.mpr hk) fs
  · intro hk
    exact dictGet_filterTrace_not_mem (fun hm => hk (hmem.mp hm)) fs

/-- Witness for C1 at a concrete accepted field. -/
theorem filterTrace_accepted_spec_witness :
    dictGet (filterTrace (acceptedKeys (fun _ => ["x", "y"]) "bar")
        [("x", JVal.num 1), ("junk", JVal.num 2)]) "x" =
      dictGet [("x", JVal.num 1), ("junk", JVal.num 2)] "x" :=
  (filterTrace_accepted_spec (fun _ => ["x", "y"]) "bar"
      [("x", JVal.num 1), ("junk", JVal.num 2)] "x").2.1 (Or.inl (by decide))

/-- C2: for axis `x` or `y`, when the layout's `{axis}axis` sub-mapping holds
a `range` list whose length is not 2, `process_layout_range` replaces exactly
that `range` value with null; a length-2 range leaves the layout unchanged,
and in the repaired layout every other entry (of the layout and of the axis
sub-mapping) keeps its value. -/
theorem process_layout_range_spec (layout afs : List (String × JVal))
    (axis : String) (rs : List JVal)
    (hax : axis = "x" ∨ axis = "y")
    (hsub : dictGet layout (axis ++ "axis") = some (JVal.obj afs))
    (hr : dictGet afs "range" = some (JVal.arr rs)) :
    (rs.length ≠ 2 →
       process_layout_range layout axis =
         .ok (dictSet layout (axis ++ "axis")
               (JVal.obj (dictSet afs "range" JVal.null)))) ∧
    (rs.length = 2 → process_layout_range layout axis = .ok layout) ∧
    (∀ k, k ≠ axis ++ "axis" →
       dictGet (dictSet layout (axis ++ "axis")
           (JVal.obj (dictSet afs "range" JVal.null))) k = dictGet layout k) ∧
    dictGet (dictSet layout (axis ++ "axis")
        (JVal.obj (dictSet afs "range" JVal.null))) (axis ++ "axis") =
      some (JVal.obj (dictSet afs "range" JVal.null)) ∧
    (∀ k, k ≠ "range" → dictGet (dictSet afs "range" JVal.null) k = dictGet afs k) ∧
    dictGet (dictSet afs "range" JVal.null) "range" = some JVal.null := by
  have hhk : hasKey afs "range" = true := hasKey_of_dictGet hr
  refine ⟨?_, ?_, ?_, ?_, ?_, ?_⟩
  · intro hlen
    simp [process_layout_range, hsub, pyContains, hhk, hr, jLen, hlen]
  · intro hlen
    simp [process_layout_range, hsub, pyContains, hhk, hr, jLen, hlen]
  · intro k hk
    exact dictGet_dictSet_ne hk layout _
  · exact dictGet_dictSet_self layout _ _
  · intro k hk
    exact dictGet_dictSet_ne hk afs _
  · exact dictGet_dictSet_self afs _ _

/-- Witness for C2: a three-element `xaxis.range` is nulled out. -/
theorem process_layout_range_spec_witness :
    process_layout_range
        [("xaxis", JVal.obj [("range", JVal.arr [JVal.num 1, JVal.num 2, JVal.num 3])])]
        "x" =
      .ok (dictSet [("xaxis", JVal.obj [("range", JVal.arr [JVal.num 1, JVal.num 2, JVal.num 3])])]
            "xaxis"
            (JVal.obj (dictSet [("range", JVal.arr [JVal.num 1, JVal.num 2, JVal.num 3])]
              "range" JVal.null))) :=
  (process_layout_range_spec
      [("xaxis", JVal.obj [("range", JVal.arr [JVal.num 1, JVal.num 2, JVal.num 3])])]
      [("range", JVal.arr [JVal.num 1, JVal.num 2, JVal.num 3])]
      "x" [JVal.num 1, JVal.num 2, JVal.num 3]
      (Or.inl rfl) rfl rfl).1 (by decide)

/-- C6: a trace whose `trace_type` value is a string other than the seven
known tags makes `process_trace` fail with the type-map lookup error; no
chart object is produced for it. -/
theorem process_trace_unknown_tag_err (dirAttrs : String → List String)
    (trace rest : List (String × JVal)) (t : String)
    (hpop : dictPop trace "trace_type" = some (JVal.str t, rest))
    (hunknown : t ∉ knownTraceTypes) :
    process_trace dirAttrs trace = .error (.mapLookupError t) := by
  unfold process_trace
  rw [hpop]
  simp [hunknown]

/-- Witness for C6 at the unrecognized tag `candlestick`. -/
theorem process_trace_unknown_tag_err_witness :
    process_trace (fun _ => []) [("trace_type", JVal.str "candlestick")] =
      .error (.mapLookupError "candlestick") :=
  process_trace_unknown_tag_err (fun _ => []) _ [] "candlestick"
    rfl (by decide)

/-- C9: a trace mapping with no `trace_type` key at all makes `process_trace`
fail with a key-access (`KeyError`) failure on `"trace_type"` — before any
filtering — which is a different error from the unknown-tag lookup error. -/
theorem process_trace_missing_type_err (dirAttrs : String → List String)
    (trace : List (String × JVal)) (h : hasKey trace "trace_type" = false) :
    process_trace dirAttrs trace = .error (.keyError "trace_type") := by
  unfold process_trace
  rw [dictPop_eq_none h]

/-- Witness for C9: a trace holding only an `x` field. -/
theorem process_trace_missing_type_err_witness :
    process_trace (fun _ => []) [("x", JVal.num 1)] =
      .error (.keyError "trace_type") :=
  process_trace_missing_type_err (fun _ => []) [("x", JVal.num 1)] (by decide)

/-! ### Further helper lemmas for the per-type fixups -/

theorem pieFixup_pie_marker {fs mfs : List (String × JVal)}
    (hm : dictGet fs "marker" = some (.obj mfs))
    (ho : hasKey mfs "opacity" = true) (hc : hasKey mfs "colorscale" = true) :
    pieFixup "pie" fs =
      .ok (dictSet fs "marker"
            (.obj (dictRemove (dictRemove mfs "opacity") "colorscale"))) := by
  obtain ⟨ov, hov⟩ := dictGet_some_of_hasKey ho
  have hc2 : hasKey (dictRemove mfs "opacity") "colorscale" = true := by
    rw [hasKey_dictRemove_ne (by decide)]
    exact hc
  obtain ⟨cv, hcv⟩ := dictGet_some_of_hasKey hc2
  simp [pieFixup, hm, dictPop_eq_some hov, dictPop_eq_some hcv]

theorem pieFixup_pie_no_opacity {fs mfs : List (String × JVal)}
    (hm : dictGet fs "marker" = some (.obj mfs))
    (ho : hasKey mfs "opacity" = false) :
    pieFixup "pie" fs = .error (.keyError "opacity") := by
  simp [pieFixup, hm, dictPop_eq_none ho]

theorem pieFixup_pie_no_colorscale {fs mfs : List (String × JVal)}
    (hm : dictGet fs "marker" = some (.obj mfs))
    (ho : hasKey mfs "opacity" = true) (hc : hasKey mfs "colorscale" = false) :
    pieFixup "pie" fs = .error (.keyError "colorscale") := by
  obtain ⟨ov, hov⟩ := dictGet_some_of_hasKey ho
  have hc2 : hasKey (dictRemove mfs "opacity") "colorscale" = false := by
    rw [hasKey_dictRemove_ne (by decide)]
    exact hc
  simp [pieFixup, hm, dictPop_eq_some hov, dictPop_eq_none hc2]

theorem dictRemove_pair_nil {mfs : List (String × JVal)}
    (h : ∀ p ∈ mfs, p.1 = "opacity" ∨ p.1 = "colorscale") :
    dictRemove (dictRemove mfs "opacity") "colorscale" = [] := by
  induction mfs with
  | nil => rfl
  | cons p rest ih =>
      obtain ⟨k1, v1⟩ := p
      have ih2 := ih (fun q hq => h q (List.mem_cons_of_mem _ hq))
      rcases h (k1, v1) (List.mem_cons_self _ _) with h1 | h1
      · have h2 : k1 = "opacity" := h1
        simp [dictRemove_cons, h2, ih2]
      · have h2 : k1 = "colorscale" := h1
        simp [dictRemove_cons, h2, ih2]

theorem flattenZ_scalar {x : JVal} (h : ∀ ys, x ≠ JVal.arr ys) :
    flattenZ x = [x] := by
  cases x with
  | arr ys => exact absurd rfl (h ys)
  | null => simp [flattenZ]
  | num n => simp [flattenZ]
  | str s => simp [flattenZ]
  | obj fs => simp [flattenZ]

theorem flattenZ_scalar_list {row : List JVal}
    (h : ∀ x ∈ row, ∀ ys, x ≠ JVal.arr ys) : flattenZ (.arr row) = row := by
  induction row with
  | nil => simp [flattenZ]
  | cons x xs ih =>
      simp only [flattenZ]
      rw [flattenZ_scalar (h x (List.mem_cons_self _ _)),
        ih (fun y hy => h y (List.mem_cons_of_mem _ hy))]
      simp

theorem flattenZ_nested {rows : List (List JVal)}
    (h : ∀ row ∈ rows, ∀ x ∈ row, ∀ ys, x ≠ JVal.arr ys) :
    flattenZ (.arr (rows.map JVal.arr)) = rows.flatten := by
  induction rows with
  | nil => simp [flattenZ]
  | cons row rows2 ih =>
      simp only [List.map_cons, flattenZ]
      rw [flattenZ_scalar_list (h row (List.mem_cons_self _ _)),
        ih (fun r hr => h r (List.mem_cons_of_mem _ hr))]
      simp

theorem npShape_scalar {x : JVal} (h : ∀ ys, x ≠ JVal.arr ys) :
    npShape x = some [] := by
  cases x with
  | arr ys => exact absurd rfl (h ys)
  | null => simp [npShape]
  | num n => simp [npShape]
  | str s => simp [npShape]
  | obj fs => simp [npShape]

theorem npShape_scalar_row {row : List JVal}
    (h : ∀ x ∈ row, ∀ ys, x ≠ JVal.arr ys) :
    npShape (.arr row) = some [row.length] := by
  induction row with
  | nil => simp [npShape]
  | cons x rest ih =>
      cases rest with
      | nil =>
          simp [npShape, npShape_scalar (h x (List.mem_cons_self _ _))]
      | cons y rest2 =>
          have ih2 := ih (fun z hz => h z (List.mem_cons_of_mem _ hz))
          simp [npShape, npShape_scalar (h x (List.mem_cons_self _ _)), ih2]

theorem npShape_rect_rows {n : Nat} :
    ∀ rows : List (List JVal), rows ≠ [] →
      (∀ row ∈ rows, ∀ x ∈ row, ∀ ys, x ≠ JVal.arr ys) →
      (∀ row ∈ rows, row.length = n) →
      npShape (.arr (rows.map JVal.arr)) = some [rows.length, n] := by
  intro rows
  induction rows with
  | nil => intro hne _ _; exact absurd rfl hne
  | cons row rest ih =>
      intro hne hsc hrect
      have h1 : npShape (.arr row) = some [n] := by
        rw [npShape_scalar_row (hsc row (List.mem_cons_self _ _)),
          hrect row (List.mem_cons_self _ _)]
      cases rest with
      | nil => simp [npShape, h1]
      | cons row2 rest2 =>
          have ih2 := ih (by simp)
            (fun r hr => hsc r (List.mem_cons_of_mem _ hr))
            (fun r hr => hrect r (List.mem_cons_of_mem _ hr))
          rw [List.map_cons] at ih2
          rw [List.map_cons, List.map_cons]
          simp [npShape, h1, ih2, List.length_cons]

/-- C8: for every successfully processed trace, the `trace_type` field was
consumed before filtering and is never present in the sanitized trace handed
to figure assembly. -/
theorem process_trace_no_trace_type (dirAttrs : String → List String)
    (trace : List (String × JVal)) (r : PlotlyObj)
    (h : process_trace dirAttrs trace = .ok r) :
    hasKey r.fields "trace_type" = false := by
  obtain ⟨t, rest, hpop, hknown, hsan, hty⟩ := process_trace_ok_elim h
  obtain ⟨hget, hrest⟩ := dictPop_some_elim hpop
  have h0 : hasKey rest "trace_type" = false := by
    rw [hrest]
    exact hasKey_dictRemove_self _ _
  have h1 : hasKey (filterTrace (acceptedKeys dirAttrs t) rest) "trace_type" = false := by
    rw [hasKey_filterTrace, h0]
    rfl
  have h2 : hasKey (remove_empty_keys (filterTrace (acceptedKeys dirAttrs t) rest))
      "trace_type" = false := by
    cases hc : hasKey (remove_empty_keys (filterTrace (acceptedKeys dirAttrs t) rest))
        "trace_type" with
    | false => rfl
    | true => exact absurd (hasKey_remove_empty_keys hc) (by simp [h1])
  obtain ⟨t4, hp, hs⟩ := sanitizeFields_ok_elim hsan
  have h3 : hasKey t4 "trace_type" = false := by
    rw [pieFixup_ok_hasKey hp (by decide)]
    exact h2
  have h4 : hasKey (xStrFixup t t4) "trace_type" = false := by
    rw [hasKey_xStrFixup_ne (by decide) (by decide)]
    exact h3
  rw [scatter3dFixup_ok_hasKey hs (by decide)]
  exact h4

/-- Witness for C8 on a concrete scatter trace. -/
theorem process_trace_no_trace_type_witness :
    hasKey (PlotlyObj.mk "scatter" [("x", JVal.arr [JVal.num 1])]).fields
      "trace_type" = false :=
  process_trace_no_trace_type (fun _ => ["x"])
    [("trace_type", JVal.str "scatter"), ("x", JVal.arr [JVal.num 1])]
    ⟨"scatter", [("x", JVal.arr [JVal.num 1])]⟩
    (by simp [process_trace, dictPop, dictGet, dictRemove, knownTraceTypes,
      sanitizeFields, filterTrace, acceptedKeys, custom_keys, remove_empty_keys,
      pieFixup, xStrFixup, scatter3dFixup])

/-- C3 is false as stated: NumPy rejects ragged nesting, so a `scatter3d`
trace with `z = [[1,2],[3]]` aborts with a `ValueError` instead of producing
the flattened sequence `[1,2,3]` the claim promises for any nested
array-of-arrays. -/
theorem process_trace_scatter3d_ragged_cex :
    process_trace (fun _ => ["z"])
        [("trace_type", JVal.str "scatter3d"),
         ("z", JVal.arr [JVal.arr [JVal.num 1, JVal.num 2], JVal.arr [JVal.num 3]])] =
      .error PErr.valueError := by
  simp [process_trace, dictPop, dictGet, dictRemove, knownTraceTypes, sanitizeFields,
    filterTrace, acceptedKeys, custom_keys, remove_empty_keys, pieFixup, xStrFixup,
    scatter3dFixup, npShape]

/-- C3 (amended): for a `scatter3d` trace whose (filtered and empty-stripped)
`z` field is a rectangular nested array of scalar rows, `process_trace`
succeeds and replaces `z` with the single flattened one-dimensional sequence
of its elements, preserving element order. -/
theorem process_trace_scatter3d_flattens_z (dirAttrs : String → List String)
    (trace rest : List (String × JVal)) (rows : List (List JVal)) (n : Nat)
    (hpop : dictPop trace "trace_type" = some (JVal.str "scatter3d", rest))
    (hz : dictGet (remove_empty_keys (filterTrace (acceptedKeys dirAttrs "scatter3d") rest)) "z"
        = some (JVal.arr (rows.map JVal.arr)))
    (hsc : ∀ row ∈ rows, ∀ x ∈ row, ∀ ys, x ≠ JVal.arr ys)
    (hrect : ∀ row ∈ rows, row.length = n) :
    process_trace dirAttrs trace =
      .ok ⟨"scatter3d",
        dictSet (xStrFixup "scatter3d"
            (remove_empty_keys (filterTrace (acceptedKeys dirAttrs "scatter3d") rest)))
          "z" (JVal.arr rows.flatten)⟩ ∧
    dictGet (dictSet (xStrFixup "scatter3d"
          (remove_empty_keys (filterTrace (acceptedKeys dirAttrs "scatter3d") rest)))
        "z" (JVal.arr rows.flatten)) "z" = some (JVal.arr rows.flatten) := by
  have hz5 : dictGet (xStrFixup "scatter3d"
      (remove_empty_keys (filterTrace (acceptedKeys dirAttrs "scatter3d") rest))) "z"
      = some (JVal.arr (rows.map JVal.arr)) := by
    rw [dictGet_xStrFixup_ne (by decide) (by decide)]
    exact hz
  have hp : pieFixup "scatter3d"
      (remove_empty_keys (filterTrace (acceptedKeys dirAttrs "scatter3d") rest)) =
      .ok (remove_empty_keys (filterTrace (acceptedKeys dirAttrs "scatter3d") rest)) :=
    pieFixup_not_pie (by decide) _
  have hshape : ∃ sh, npShape (JVal.arr (rows.map JVal.arr)) = some sh := by
    cases rows with
    | nil => exact ⟨[0], by simp [npShape]⟩
    | cons r rs =>
        exact ⟨[(r :: rs).length, n], npShape_rect_rows (r :: rs) (by simp) hsc hrect⟩
  obtain ⟨sh, hsh⟩ := hshape
  have hs := scatter3dFixup_z hz5 hsh
  rw [flattenZ_nested hsc] at hs
  have hsan := sanitizeFields_ok_intro hp hs
  constructor
  · rw [process_trace_known dirAttrs hpop (by decide), hsan]
  · exact dictGet_dictSet_self _ _ _

/-- Witness for the amended C3: the rectangular `[[1,2],[3,4]]` becomes
`[1,2,3,4]`. -/
theorem process_trace_scatter3d_flattens_z_witness :
    process_trace (fun _ => ["z"])
        [("trace_type", JVal.str "scatter3d"),
         ("z", JVal.arr [JVal.arr [JVal.num 1, JVal.num 2],
                         JVal.arr [JVal.num 3, JVal.num 4]])] =
      .ok ⟨"scatter3d",
        [("z", JVal.arr [JVal.num 1, JVal.num 2, JVal.num 3, JVal.num 4])]⟩ := by
  have h := (process_trace_scatter3d_flattens_z (fun _ => ["z"])
    [("trace_type", JVal.str "scatter3d"),
     ("z", JVal.arr [JVal.arr [JVal.num 1, JVal.num 2],
                     JVal.arr [JVal.num 3, JVal.num 4]])]
    [("z", JVal.arr [JVal.arr [JVal.num 1, JVal.num 2],
                     JVal.arr [JVal.num 3, JVal.num 4]])]
    [[JVal.num 1, JVal.num 2], [JVal.num 3, JVal.num 4]] 2
    rfl
    (by simp [remove_empty_keys, filterTrace, acceptedKeys, custom_keys, dictGet])
    (by
      intro row hrow x hx ys
      simp only [List.mem_cons, List.not_mem_nil, or_false] at hrow
      rcases hrow with rfl | rfl <;>
        · simp only [List.mem_cons, List.not_mem_nil, or_false] at hx
          rcases hx with rfl | rfl <;> simp)
    (by
      intro row hrow
      simp only [List.mem_cons, List.not_mem_nil, or_false] at hrow
      rcases hrow with rfl | rfl <;> rfl)).1
  simpa [remove_empty_keys, filterTrace, acceptedKeys, custom_keys, xStrFixup,
    dictGet, dictSet, hasKey] using h

/-- C5: for a `pie` trace whose filtered-and-stripped fields contain a
`marker` sub-mapping: when the marker has both `opacity` and `colorscale`,
processing succeeds and both keys are absent from the final marker; when
`opacity` is missing the run aborts with a `KeyError` on `opacity`; when only
`colorscale` is missing it aborts with a `KeyError` on `colorscale`. -/
theorem process_trace_pie_marker_spec (dirAttrs : String → List String)
    (trace rest mfs : List (String × JVal))
    (hpop : dictPop trace "trace_type" = some (JVal.str "pie", rest))
    (hm : dictGet (remove_empty_keys (filterTrace (acceptedKeys dirAttrs "pie") rest)) "marker"
        = some (JVal.obj mfs)) :
    (hasKey mfs "opacity" = true → hasKey mfs "colorscale" = true →
      process_trace dirAttrs trace =
        .ok ⟨"pie", xStrFixup "pie"
          (dictSet (remove_empty_keys (filterTrace (acceptedKeys dirAttrs "pie") rest)) "marker"
            (JVal.obj (dictRemove (dictRemove mfs "opacity") "colorscale")))⟩ ∧
      dictGet (xStrFixup "pie"
          (dictSet (remove_empty_keys (filterTrace (acceptedKeys dirAttrs "pie") rest)) "marker"
            (JVal.obj (dictRemove (dictRemove mfs "opacity") "colorscale")))) "marker"
        = some (JVal.obj (dictRemove (dictRemove mfs "opacity") "colorscale")) ∧
      hasKey (dictRemove (dictRemove mfs "opacity") "colorscale") "opacity" = false ∧
      hasKey (dictRemove (dictRemove mfs "opacity") "colorscale") "colorscale" = false) ∧
    (hasKey mfs "opacity" = false →
      process_trace dirAttrs trace = .error (.keyError "opacity")) ∧
    (hasKey mfs "opacity" = true → hasKey mfs "colorscale" = false →
      process_trace dirAttrs trace = .error (.keyError "colorscale")) := by
  refine ⟨?_, ?_, ?_⟩
  · intro ho hc
    have hp := pieFixup_pie_marker hm ho hc
    have hs := scatter3dFixup_not (show ("pie" : String) ≠ "scatter3d" by decide)
      (xStrFixup "pie"
        (dictSet (remove_empty_keys (filterTrace (acceptedKeys dirAttrs "pie") rest)) "marker"
          (JVal.obj (dictRemove (dictRemove mfs "opacity") "colorscale"))))
    have hsan := sanitizeFields_ok_intro hp hs
    refine ⟨?_, ?_, ?_, ?_⟩
    · rw [process_trace_known dirAttrs hpop (by decide), hsan]
    · rw [dictGet_xStrFixup_ne (by decide) (by decide)]
      exact dictGet_dictSet_self _ _ _
    · rw [hasKey_dictRemove_ne (by decide)]
      exact hasKey_dictRemove_self _ _
    · exact hasKey_dictRemove_self _ _
  · intro ho
    have hp := pieFixup_pie_no_opacity hm ho
    rw [process_trace_known dirAttrs hpop (by decide), sanitizeFields_err_pie hp]
  · intro ho hc
    have hp := pieFixup_pie_no_colorscale hm ho hc
    rw [process_trace_known dirAttrs hpop (by decide), sanitizeFields_err_pie hp]

/-- Witness for C5: a pie marker holding both keys loses both. -/
theorem process_trace_pie_marker_spec_witness :
    process_trace (fun _ => ["marker"])
        [("trace_type", JVal.str "pie"),
         ("marker", JVal.obj [("opacity", JVal.num 1), ("colorscale", JVal.str "v")])] =
      .ok ⟨"pie", [("marker", JVal.obj [])]⟩ := by
  have h := ((process_trace_pie_marker_spec (fun _ => ["marker"])
    [("trace_type", JVal.str "pie"),
     ("marker", JVal.obj [("opacity", JVal.num 1), ("colorscale", JVal.str "v")])]
    [("marker", JVal.obj [("opacity", JVal.num 1), ("colorscale", JVal.str "v")])]
    [("opacity", JVal.num 1), ("colorscale", JVal.str "v")]
    rfl
    (by simp [remove_empty_keys, filterTrace, acceptedKeys, custom_keys, dictGet])).1
    rfl rfl).1
  have e1 : dictRemove (dictRemove
      [("opacity", JVal.num 1), ("colorscale", JVal.str "v")] "opacity") "colorscale" =
      ([] : List (String × JVal)) := by
    simp [dictRemove]
  have e2 : remove_empty_keys (filterTrace (acceptedKeys (fun _ => ["marker"]) "pie")
      [("marker", JVal.obj [("opacity", JVal.num 1), ("colorscale", JVal.str "v")])]) =
      [("marker", JVal.obj [("opacity", JVal.num 1), ("colorscale", JVal.str "v")])] := by
    simp [remove_empty_keys, filterTrace, acceptedKeys, custom_keys]
  rw [e1, e2] at h
  have e3 : dictSet [("marker", JVal.obj [("opacity", JVal.num 1), ("colorscale", JVal.str "v")])]
      "marker" (JVal.obj []) = [("marker", JVal.obj [])] := by
    simp [dictSet, hasKey]
  rw [e3] at h
  have e4 : xStrFixup "pie" [("marker", JVal.obj [])] = [("marker", JVal.obj [])] := by
    simp [xStrFixup, dictGet]
  rw [e4] at h
  exact h

/-- C10: empty-substructure stripping runs before the pie fixup and is not
re-applied afterwards, so a pie trace whose stripped marker holds exactly the
keys `opacity` and `colorscale` still carries a `marker` entry in the final
object, and that entry is an empty mapping. -/
theorem process_trace_pie_empty_marker (dirAttrs : String → List String)
    (trace rest mfs : List (String × JVal))
    (hpop : dictPop trace "trace_type" = some (JVal.str "pie", rest))
    (hm : dictGet (remove_empty_keys (filterTrace (acceptedKeys dirAttrs "pie") rest)) "marker"
        = some (JVal.obj mfs))
    (ho : hasKey mfs "opacity" = true) (hc : hasKey mfs "colorscale" = true)
    (honly : ∀ p ∈ mfs, p.1 = "opacity" ∨ p.1 = "colorscale") :
    process_trace dirAttrs trace =
      .ok ⟨"pie", xStrFixup "pie"
        (dictSet (remove_empty_keys (filterTrace (acceptedKeys dirAttrs "pie") rest)) "marker"
          (JVal.obj []))⟩ ∧
    dictGet (xStrFixup "pie"
        (dictSet (remove_empty_keys (filterTrace (acceptedKeys dirAttrs "pie") rest)) "marker"
          (JVal.obj []))) "marker" = some (JVal.obj []) := by
  have hnil := dictRemove_pair_nil honly
  have hp := pieFixup_pie_marker hm ho hc
  rw [hnil] at hp
  have hs := scatter3dFixup_not (show ("pie" : String) ≠ "scatter3d" by decide)
    (xStrFixup "pie"
      (dictSet (remove_empty_keys (filterTrace (acceptedKeys dirAttrs "pie") rest)) "marker"
        (JVal.obj [])))
  have hsan := sanitizeFields_ok_intro hp hs
  constructor
  · rw [process_trace_known dirAttrs hpop (by decide), hsan]
  · rw [dictGet_xStrFixup_ne (by decide) (by decide)]
    exact dictGet_dictSet_self _ _ _

/-- Witness for C10: the marker survives as an empty mapping. -/
theorem process_trace_pie_empty_marker_witness :
    dictGet (xStrFixup "pie"
        (dictSet (remove_empty_keys (filterTrace (acceptedKeys (fun _ => ["marker"]) "pie")
            [("marker", JVal.obj [("opacity", JVal.num 2), ("colorscale", JVal.str "Viridis")])]))
          "marker" (JVal.obj []))) "marker" = some (JVal.obj []) :=
  (process_trace_pie_empty_marker (fun _ => ["marker"])
    [("trace_type", JVal.str "pie"),
     ("marker", JVal.obj [("opacity", JVal.num 2), ("colorscale", JVal.str "Viridis")])]
    [("marker", JVal.obj [("opacity", JVal.num 2), ("colorscale", JVal.str "Viridis")])]
    [("opacity", JVal.num 2), ("colorscale", JVal.str "Viridis")]
    rfl
    (by simp [remove_empty_keys, filterTrace, acceptedKeys, custom_keys, dictGet])
    rfl rfl
    (by
      intro p hp
      simp only [List.mem_cons, List.not_mem_nil, or_false] at hp
      rcases hp with rfl | rfl
      · exact Or.inl rfl
      · exact Or.inr rfl)).2

/-- C4 as stated is false: a `bar` trace whose `x_str` survives the filtering
step can still lose it in the empty-stripping step (here `x_str` is the empty
list), so the copy into `x` never happens and the sanitized trace's `x` does
not equal the original `x_str` value. -/
theorem process_trace_bar_x_str_cex :
    hasKey (filterTrace (acceptedKeys (fun _ => ["x", "y"]) "bar")
        [("x_str", JVal.arr [])]) "x_str" = true ∧
    process_trace (fun _ => ["x", "y"])
        [("trace_type", JVal.str "bar"), ("x_str", JVal.arr [])] =
      .ok ⟨"bar", []⟩ ∧
    ¬ dictGet ((PlotlyObj.mk "bar" ([] : List (String × JVal))).fields) "x" =
        some (JVal.arr []) := by
  refine ⟨rfl, ?_, ?_⟩
  · simp [process_trace, dictPop, dictGet, dictRemove, knownTraceTypes,
      sanitizeFields, filterTrace, acceptedKeys, custom_keys, remove_empty_keys,
      pieFixup, xStrFixup, scatter3dFixup]
  · simp [dictGet]

/-- C4 (amended): for every trace that still has an `x_str` field after
filtering and empty-stripping, no successful result retains an `x_str` key;
and a `bar` trace succeeds with its `x` set to that post-stripping `x_str`
value. -/
theorem process_trace_x_str_spec (dirAttrs : String → List String)
    (trace rest : List (String × JVal)) (t : String) (xv : JVal)
    (hpop : dictPop trace "trace_type" = some (JVal.str t, rest))
    (hx : dictGet (remove_empty_keys (filterTrace (acceptedKeys dirAttrs t) rest)) "x_str"
        = some xv) :
    (∀ r, process_trace dirAttrs trace = .ok r → hasKey r.fields "x_str" = false) ∧
    (t = "bar" →
      process_trace dirAttrs trace =
        .ok ⟨"bar", dictRemove (dictSet
          (remove_empty_keys (filterTrace (acceptedKeys dirAttrs "bar") rest)) "x" xv)
          "x_str"⟩ ∧
      dictGet (dictRemove (dictSet
          (remove_empty_keys (filterTrace (acceptedKeys dirAttrs "bar") rest)) "x" xv)
          "x_str") "x" = some xv) := by
  constructor
  · intro r hr
    obtain ⟨t2, rest2, hpop2, hknown2, hsan2, hty2⟩ := process_trace_ok_elim hr
    obtain ⟨t4, hp, hs⟩ := sanitizeFields_ok_elim hsan2
    rw [scatter3dFixup_ok_hasKey hs (by decide)]
    exact hasKey_xStrFixup_x_str _ _
  · intro ht
    subst ht
    have hxb := xStrFixup_bar hx
    have hp := pieFixup_not_pie (show ("bar" : String) ≠ "pie" by decide)
      (remove_empty_keys (filterTrace (acceptedKeys dirAttrs "bar") rest))
    have hs := scatter3dFixup_not (show ("bar" : String) ≠ "scatter3d" by decide)
      (xStrFixup "bar" (remove_empty_keys (filterTrace (acceptedKeys dirAttrs "bar") rest)))
    have hsan := sanitizeFields_ok_intro hp hs
    rw [hxb] at hsan
    constructor
    · rw [process_trace_known dirAttrs hpop (by decide), hsan]
    · rw [dictGet_dictRemove_ne (by decide)]
      exact dictGet_dictSet_self _ _ _

/-- Witness for the amended C4: `x_str = ["a"]` is copied into `x` and then
removed. -/
theorem process_trace_x_str_spec_witness :
    process_trace (fun _ => ["x"])
        [("trace_type", JVal.str "bar"), ("x_str", JVal.arr [JVal.str "a"])] =
      .ok ⟨"bar", [("x", JVal.arr [JVal.str "a"])]⟩ := by
  have h := ((process_trace_x_str_spec (fun _ => ["x"])
    [("trace_type", JVal.str "bar"), ("x_str", JVal.arr [JVal.str "a"])]
    [("x_str", JVal.arr [JVal.str "a"])] "bar" (JVal.arr [JVal.str "a"])
    rfl
    (by simp [remove_empty_keys, filterTrace, acceptedKeys, custom_keys, dictGet])).2
    rfl).1
  have e1 : remove_empty_keys (filterTrace (acceptedKeys (fun _ => ["x"]) "bar")
      [("x_str", JVal.arr [JVal.str "a"])]) = [("x_str", JVal.arr [JVal.str "a"])] := by
    simp [remove_empty_keys, filterTrace, acceptedKeys, custom_keys]
  rw [e1] at h
  have e2 : dictSet [("x_str", JVal.arr [JVal.str "a"])] "x" (JVal.arr [JVal.str "a"]) =
      [("x_str", JVal.arr [JVal.str "a"]), ("x", JVal.arr [JVal.str "a"])] := by
    simp [dictSet, hasKey]
  rw [e2] at h
  have e3 : dictRemove [("x_str", JVal.arr [JVal.str "a"]), ("x", JVal.arr [JVal.str "a"])]
      "x_str" = [("x", JVal.arr [JVal.str "a"])] := by
    simp [dictRemove]
  rw [e3] at h
  exact h
